import Mathlib

/-!
Verification of the tile-coverage worker
(`src/app/workers/_tile_coverage/build_tile_coverage.py`) of HerbaTerra.

The Python module is shallowly embedded: each function becomes a Lean
definition over explicit inputs, the asynchronous environment (HTTP
responses, the monotonic clock, write failures) is passed in as data, and
time is modelled with rational numbers.
-/

namespace TileCoverage

/-! ## TileDecoder (`image_count`)

`mvt_decode` returns a dict of layers; each layer is a dict whose
`"features"` key holds a list.  Dicts are modelled as association lists,
features as an opaque list.  A raw byte payload is modelled by its
denotation under `mvt_decode`: either a decode failure (the library
raises) or the decoded layer dict. -/

/-- One feature of a vector-tile layer; only the count of features matters. -/
abbrev Feature := Unit

/-- A decoded layer: the layer dict, keyed by field name (`"features"`, ...). -/
abbrev Layer := List (String × List Feature)

/-- A decoded tile: the dict returned by `mvt_decode`, keyed by layer name. -/
abbrev Decoded := List (String × Layer)

/-- Denotation of a raw tile payload under `mvt_decode`: `.error` when the
decode raises, `.ok` with the layer dict otherwise. -/
abbrev MvtBytes := Except Unit Decoded

/-- The body of `image_count(mvt_bytes)` after a successful decode: `d.get("image")`,
`if not layer: return 0` (absent or empty dict), else
`len(layer.get("features", []))`. -/
def image_count (d : Decoded) : ℕ :=
  match d.lookup "image" with
  | none => 0
  | some layer => if layer.isEmpty then 0 else ((layer.lookup "features").getD []).length

/-! ## RetryingFetcher (`fetch_tile_with_retry`)

Each loop iteration makes one attempt; the environment `env` maps the
attempt number (1-based) to that attempt's outcome.  The function
records its externally visible actions (limiter acquisition, the HTTP
request, backoff sleeps) as a trace and returns the boolean coverage
result.  Every exception path in the source returns a boolean
(`except Exception: return False` is a catch-all), so the embedded
result type has no escaping-exception channel. -/

/-- Outcome of one fetch attempt, as seen by the `try` block. -/
inductive AttemptResult : Type
  /-- An HTTP response arrived with this status; the body's decode
  denotation is relevant only when the status is 200. -/
  | response (status : ℕ) (body : MvtBytes)
  /-- Raised `aiohttp.ClientError` or `asyncio.TimeoutError`. -/
  | netErr

/-- The statuses the source retries: `(429, 500, 502, 503, 504)`. -/
def retryableStatuses : List ℕ := [429, 500, 502, 503, 504]

/-- An attempt outcome caught by
`except (aiohttp.ClientError, asyncio.TimeoutError, TileFetchError)`. -/
def AttemptResult.isRetryable : AttemptResult → Bool
  | .response s _ => s ∈ retryableStatuses
  | .netErr => true

/-- Externally visible actions of the fetcher. -/
inductive Ev : Type
  /-- The call `await limiter.acquire()`. -/
  | acquire
  /-- The call `session.get(url)` during the given 1-based attempt. -/
  | request (attempt : ℕ)
  /-- The backoff `await asyncio.sleep(d)`. -/
  | sleepFor (d : ℚ)
  deriving DecidableEq

/-- The sleep amount `min(BACKOFF_CAP_SECONDS, BACKOFF_BASE_SECONDS * (2 ** (attempt - 1)))`. -/
def backoff (base cap : ℚ) (attempt : ℕ) : ℚ :=
  min cap (base * 2 ^ (attempt - 1))

/-- The retry loop from attempt `a` with `r` loop iterations remaining
(`r = MAX_RETRIES + 1 - a`); `r = 0` is the fall-through
`return False` after the `for`.  Returns the event trace and the boolean
result. -/
def fetchAux (env : ℕ → AttemptResult) (base cap : ℚ) : ℕ → ℕ → List Ev × Bool
  | _, 0 => ([], false)
  | a, r + 1 =>
    let pre : List Ev := [.acquire, .request a]
    match env a with
    | .response s body =>
      if s = 200 then
        -- `return image_count(body) > 0`; a decode exception is not a
        -- ClientError/TimeoutError/TileFetchError, so it falls to
        -- `except Exception: return False`.
        match body with
        | .ok d => (pre, decide (0 < image_count d))
        | .error _ => (pre, false)
      else if s ∈ retryableStatuses then
        -- `raise TileFetchError(...)`, caught by the retry handler:
        -- last attempt returns False, otherwise sleep and continue.
        if r = 0 then (pre, false)
        else
          let rest := fetchAux env base cap (a + 1) r
          (pre ++ Ev.sleepFor (backoff base cap a) :: rest.1, rest.2)
      else
        -- `raise RuntimeError(...)`, caught by `except Exception`.
        (pre, false)
    | .netErr =>
      -- ClientError / TimeoutError: same handler as TileFetchError.
      if r = 0 then (pre, false)
      else
        let rest := fetchAux env base cap (a + 1) r
        (pre ++ Ev.sleepFor (backoff base cap a) :: rest.1, rest.2)

/-- The function `fetch_tile_with_retry`: the loop `for attempt in range(1, MAX_RETRIES + 1)`. -/
def fetch_tile_with_retry (env : ℕ → AttemptResult) (maxRetries : ℕ) (base cap : ℚ) :
    List Ev × Bool :=
  fetchAux env base cap 1 maxRetries

/-- The trace of `k` consecutive retryable attempts starting at attempt `a`:
acquire, request, backoff sleep, repeated. -/
def retryTrace (base cap : ℚ) : ℕ → ℕ → List Ev
  | _, 0 => []
  | a, k + 1 =>
    [.acquire, .request a, .sleepFor (backoff base cap a)] ++ retryTrace base cap (a + 1) k

/-! ## ConcurrencyScheduler (`fetch_batch`)

`fetch_batch` creates one task per `(x, y)` row and `asyncio.gather`s
them; `gather` returns results in task-creation order, so the result is
the row list mapped through `fetch_tile_with_retry`.  The per-tile HTTP
environment is `env x y`. -/

/-- The function `fetch_batch`: one task `one(x, y)` per row, gathered in order; each
task returns `(x, y, has_coverage)`. -/
def fetch_batch (rows : List (ℤ × ℤ)) (env : ℤ → ℤ → ℕ → AttemptResult)
    (maxRetries : ℕ) (base cap : ℚ) : List (ℤ × ℤ × Bool) :=
  rows.map fun p => (p.1, p.2, (fetch_tile_with_retry (env p.1 p.2) maxRetries base cap).2)

/-! ## RateLimiter (`AsyncRateLimiter`)

Time is rational.  The lock serializes the critical sections of
`acquire`; the model is the sequence of critical sections, each given
the `time.monotonic()` value `now` it observes.  A section either
dispatches (when `now` has reached `_next_allowed`, advancing it to
`now + interval` and returning to the caller at instant `now`) or
leaves the state unchanged (the caller sleeps and loops). -/

/-- The interval `self.interval = 1.0 / requests_per_second`. -/
def limiterInterval (requests_per_second : ℚ) : ℚ := 1 / requests_per_second

/-- One critical section of `acquire`: state `s` is `_next_allowed`,
`now` the observed clock.  Returns the new state and `some t` when the
caller dispatches at instant `t`. -/
def lstep (interval s now : ℚ) : ℚ × Option ℚ :=
  if s ≤ now then (now + interval, some now) else (s, none)

/-- A run of the limiter over a serialized sequence of critical-section
clock observations; returns the final `_next_allowed` and the dispatch
instants in order. -/
def lrun (interval : ℚ) : ℚ → List ℚ → ℚ × List ℚ
  | s, [] => (s, [])
  | s, now :: rest =>
    let step := lstep interval s now
    let r := lrun interval step.1 rest
    (r.1, step.2.toList ++ r.2)

/-! ## BatchPersister (the per-batch `try`/`except` block)

The DuckDB connection state is the committed data; `BEGIN` opens a
transaction working copy, each `execute` runs against it and may raise
(the failure oracle `failAt` gives the index of the first statement —
counting `COMMIT` — that raises, if any), `COMMIT` publishes the copy,
and the `except` handler issues `ROLLBACK` (discarding the copy) and
re-raises, halting the run. -/

/-- One row of the `images` table, with the derived tile columns exposed
by the `images_with_tiles` view and the `eventDate` ordering key. -/
structure ImageRow where
  image_id : ℕ
  tile_x : Option ℤ
  tile_y : Option ℤ
  tile_z : Option ℤ
  has_coverage : Option Bool
  eventDate : ℤ
  deriving DecidableEq

/-- One row of the `tile_results` temp table: `(tile_x, tile_y, has_coverage)`. -/
abbrev TileResult := ℤ × ℤ × Bool

/-- The `BATCH_UPDATE` statement: set `images.has_coverage` from the
`tile_results` row whose `(tile_x, tile_y)` matches the row's derived
tile at zoom `z`. -/
def applyBatchUpdate (z : ℤ) (tr : List TileResult) (rows : List ImageRow) : List ImageRow :=
  rows.map fun r =>
    match tr.find? (fun t =>
        decide (r.tile_x = some t.1) && decide (r.tile_y = some t.2.1) &&
        decide (r.tile_z = some z)) with
    | some t => { r with has_coverage := some t.2.2 }
    | none => r

/-- Database state: the `images` table and the `tile_results` temp table. -/
structure DBState where
  images : List ImageRow
  tile_results : List TileResult
  deriving DecidableEq

/-- One `execute` statement of the per-batch transaction body. -/
inductive DbOp : Type
  /-- one row of `executemany("INSERT INTO tile_results VALUES (?, ?, ?)", batch)` -/
  | insertTR (t : TileResult)
  /-- The statement `con.execute(BATCH_UPDATE, [Z])`. -/
  | updateImages
  /-- The statement `con.execute("DELETE FROM tile_results")`. -/
  | deleteTR

/-- Effect of one statement on the transaction's working state. -/
def runOp (z : ℤ) (st : DBState) : DbOp → DBState
  | .insertTR t => { st with tile_results := st.tile_results ++ [t] }
  | .updateImages => { st with images := applyBatchUpdate z st.tile_results st.images }
  | .deleteTR => { st with tile_results := [] }

/-- Run the statements of a transaction in order on the working state.
`failAt = some i` makes the `i`-th statement raise (with `i` = the
number of ops, `COMMIT` itself raises); the result is then `.error`. -/
def runOps (z : ℤ) : DBState → List DbOp → Option ℕ → Except Unit DBState
  | _, _, some 0 => .error ()
  | st, [], _ => .ok st
  | st, op :: rest, failAt => runOps z (runOp z st op) rest (failAt.map (· - 1))

/-- The statements the loop body issues for one batch, in order. -/
def batchOps (batch : List TileResult) : List DbOp :=
  batch.map .insertTR ++ [.updateImages, .deleteTR]

/-- The per-batch persistence block: `BEGIN` (working copy of `db`), the
batch's statements, `COMMIT` on success; on any exception, `ROLLBACK`
and re-raise.  Returns the connection's committed state and whether an
exception propagated out of the block. -/
def persistBatch (db : DBState) (z : ℤ) (batch : List TileResult) (failAt : Option ℕ) :
    DBState × Bool :=
  match runOps z db (batchOps batch) failAt with
  | .ok st => (st, false)
  | .error _ => (db, true)

/-! ## WorkListSelector (`tiles_to_check`)

The `CREATE TEMP TABLE tiles_to_check AS SELECT DISTINCT tile_x, tile_y
... WHERE tile_z = ? AND tile_x IS NOT NULL AND tile_y IS NOT NULL AND
has_coverage IS NULL ORDER BY eventDate DESC LIMIT ?` query, modelled
denotationally: filter, sort by `eventDate` descending, project to
coordinates, keep first occurrences, truncate.  The run executes this
query once and slices the materialized list into batches. -/

/-- The `WHERE` clause of the selection query. -/
def unresolvedAtZoom (z : ℤ) (r : ImageRow) : Bool :=
  decide (r.tile_z = some z) && r.tile_x.isSome && r.tile_y.isSome &&
    decide (r.has_coverage = none)

/-- Projection `SELECT tile_x, tile_y` (both non-NULL after the filter). -/
def coords (r : ImageRow) : ℤ × ℤ := (r.tile_x.getD 0, r.tile_y.getD 0)

/-- The clause `ORDER BY eventDate DESC` (stable sort). -/
def sortByDateDesc (rows : List ImageRow) : List ImageRow :=
  List.insertionSort (fun a b => b.eventDate ≤ a.eventDate) rows

/-- The loop behind `DISTINCT`, keeping the first occurrence of each pair
not yet `seen`. -/
def dedupFirstAux (seen : List (ℤ × ℤ)) : List (ℤ × ℤ) → List (ℤ × ℤ)
  | [] => []
  | x :: xs =>
    if x ∈ seen then dedupFirstAux seen xs else x :: dedupFirstAux (x :: seen) xs

/-- The loop behind `DISTINCT`, keeping the first occurrence of each pair. -/
def dedupFirst (l : List (ℤ × ℤ)) : List (ℤ × ℤ) := dedupFirstAux [] l

/-- The selection query: up to `n` distinct unresolved tiles at zoom
`z`, most recent first. -/
def tiles_to_check (z : ℤ) (n : ℕ) (rows : List ImageRow) : List (ℤ × ℤ) :=
  (dedupFirst ((sortByDateDesc (rows.filter (unresolvedAtZoom z))).map coords)).take n

/-- Fuel-indexed slicing loop; one slice of size `bs` per step. -/
def chunksAux {α : Type} (bs : ℕ) : ℕ → List α → List (List α)
  | _, [] => []
  | 0, l => [l]
  | fuel + 1, x :: xs => (x :: xs).take bs :: chunksAux bs fuel ((x :: xs).drop bs)

/-- The loop `for start in range(0, len(all_tiles), BATCH_SIZE)`: consecutive
slices of size `bs` (the fuel `l.length` suffices for any `bs ≥ 1`). -/
def chunks {α : Type} (bs : ℕ) (l : List α) : List (List α) :=
  chunksAux bs l.length l

/-- The batches the run actually fetches: the selection query is run
once, materialized (`all_tiles`), and sliced. -/
def codeBatches (z : ℤ) (n bs : ℕ) (rows : List ImageRow) : List (List (ℤ × ℤ)) :=
  chunks bs (tiles_to_check z n rows)

/-- The batch sequence the claim describes, re-running the selection
query before each batch against the then-committed state (`cover` gives
each tile's fetched outcome; `fuel` bounds the loop).  This definition
follows the claim's words, for comparison with `codeBatches`. -/
def requeryBatches (z : ℤ) (n bs : ℕ) (cover : ℤ → ℤ → Bool) :
    ℕ → List ImageRow → List (List (ℤ × ℤ))
  | 0, _ => []
  | fuel + 1, rows =>
    let q := tiles_to_check z n rows
    if q = [] then []
    else
      let batch := q.take bs
      let outcomes := batch.map fun t => (t.1, t.2, cover t.1 t.2)
      batch :: requeryBatches z n bs cover fuel (applyBatchUpdate z outcomes rows)

/-- A retryable attempt advances the loop: one acquire/request/sleep
triple is emitted and the loop continues at the next attempt. -/
lemma fetchAux_retry_step (env : ℕ → AttemptResult) (base cap : ℚ) (a r : ℕ)
    (hret : (env a).isRetryable = true) (hr : 1 ≤ r) :
    fetchAux env base cap a (r + 1) =
      ([.acquire, .request a, .sleepFor (backoff base cap a)] ++
        (fetchAux env base cap (a + 1) r).1,
       (fetchAux env base cap (a + 1) r).2) := by
  have hr0 : r ≠ 0 := Nat.one_le_iff_ne_zero.mp hr
  cases henv : env a with
  | response s body =>
    have hs : (s ∈ retryableStatuses) = True := by
      have := hret
      rw [henv] at this
      simp [AttemptResult.isRetryable] at this
      simp [this]
    have hs200 : s ≠ 200 := by
      have := hret
      rw [henv] at this
      simp [AttemptResult.isRetryable, retryableStatuses] at this
      rcases this with h | h | h | h | h <;> omega
    simp [fetchAux, henv, hs200, hs, hr0]
  | netErr =>
    simp [fetchAux, henv, hr0]

/-- Structure of the run after `k` retryable attempts: the trace is the
`k`-step retry prefix followed by the trace of the loop resumed at
attempt `k + 1`, and the result is the resumed loop's result. -/
lemma fetchAux_retryable_run (env : ℕ → AttemptResult) (base cap : ℚ) :
    ∀ (k a r : ℕ), (∀ i, i < k → (env (a + i)).isRetryable = true) → k < r →
    fetchAux env base cap a r =
      (retryTrace base cap a k ++ (fetchAux env base cap (a + k) (r - k)).1,
       (fetchAux env base cap (a + k) (r - k)).2) := by
  intro k
  induction k with
  | zero =>
    intro a r _ _
    simp [retryTrace]
  | succ k ih =>
    intro a r hret hkr
    obtain ⟨r', rfl⟩ : ∃ r', r = r' + 1 := ⟨r - 1, by omega⟩
    have hstep := fetchAux_retry_step env base cap a r'
      (by have := hret 0 (by omega); simpa using this) (by omega)
    have hrec := ih (a + 1) r' (fun i hi => by
        have := hret (i + 1) (by omega)
        simpa [Nat.add_comm, Nat.add_assoc, Nat.add_left_comm] using this)
      (by omega)
    rw [hstep, hrec]
    have h1 : a + 1 + k = a + (k + 1) := by omega
    have h2 : r' - k = r' + 1 - (k + 1) := by omega
    rw [show retryTrace base cap a (k + 1) =
          [.acquire, .request a, .sleepFor (backoff base cap a)] ++
            retryTrace base cap (a + 1) k from rfl, h1, h2]
    simp

/-- Any loop iteration begins by acquiring the limiter and issuing the
request: the first two trace events of a run starting at attempt `a`. -/
lemma fetchAux_take_two (env : ℕ → AttemptResult) (base cap : ℚ) (a r : ℕ) (hr : 1 ≤ r) :
    ((fetchAux env base cap a r).1).take 2 = [.acquire, .request a] := by
  obtain ⟨r', rfl⟩ : ∃ r', r = r' + 1 := ⟨r - 1, by omega⟩
  cases henv : env a with
  | response s body =>
    by_cases hs : s = 200
    · cases body <;> simp [fetchAux, henv, hs]
    · by_cases hmem : s ∈ retryableStatuses
      · by_cases hr0 : r' = 0 <;> simp [fetchAux, henv, hs, hmem, hr0]
      · simp [fetchAux, henv, hs, hmem]
  | netErr =>
    by_cases hr0 : r' = 0 <;> simp [fetchAux, henv, hr0]

/-- A retryable outcome on the final allowed attempt ends the loop with
`return False`. -/
lemma fetchAux_last_retryable (env : ℕ → AttemptResult) (base cap : ℚ) (a : ℕ)
    (hret : (env a).isRetryable = true) :
    fetchAux env base cap a 1 = ([.acquire, .request a], false) := by
  cases henv : env a with
  | response s body =>
    have hs : (s ∈ retryableStatuses) = True := by
      have := hret
      rw [henv] at this
      simp [AttemptResult.isRetryable] at this
      simp [this]
    have hs200 : s ≠ 200 := by
      have := hret
      rw [henv] at this
      simp [AttemptResult.isRetryable, retryableStatuses] at this
      rcases this with h | h | h | h | h <;> omega
    simp [fetchAux, henv, hs200, hs]
  | netErr =>
    simp [fetchAux, henv]

/-! ## Sample data for concrete witnesses -/

/-- A decoded tile with one feature in the `"image"` layer. -/
def sampleDecoded : Decoded := [("image", [("features", [()])])]

/-- A decoded tile with two features in the `"image"` layer. -/
def sampleDecoded2 : Decoded := [("image", [("features", [(), ()])])]

/-- HTTP environment: 503 on attempts 1–3, then 200 with `sampleDecoded`. -/
def env503x3 : ℕ → AttemptResult := fun a =>
  if a ≤ 3 then .response 503 (.error ()) else .response 200 (.ok sampleDecoded)

/-- HTTP environment: every attempt times out. -/
def envTimeout : ℕ → AttemptResult := fun _ => .netErr

/-- HTTP environment: every attempt yields 503. -/
def env503 : ℕ → AttemptResult := fun _ => .response 503 (.error ())

/-- HTTP environment: 200 whose body fails to decode. -/
def envBadBody : ℕ → AttemptResult := fun _ => .response 200 (.error ())

/-- HTTP environment: 200 decoding to an empty layer dict (no coverage). -/
def envEmptyOk : ℕ → AttemptResult := fun _ => .response 200 (.ok [])

/-- C1: if every attempt before attempt `k ≤ max_retries` fails with a
retryable outcome (status in {429,500,502,503,504}, timeout, or
connection error) and attempt `k` returns HTTP 200, the fetch returns
the decoded coverage of the body. -/
theorem C1_retry_then_success (env : ℕ → AttemptResult) (maxRetries k : ℕ) (base cap : ℚ)
    (body : Decoded) (hk1 : 1 ≤ k) (hkmax : k ≤ maxRetries)
    (hret : ∀ a, 1 ≤ a → a < k → (env a).isRetryable = true)
    (h200 : env k = .response 200 (.ok body)) :
    (fetch_tile_with_retry env maxRetries base cap).2 = decide (0 < image_count body) := by
  unfold fetch_tile_with_retry
  rw [fetchAux_retryable_run env base cap (k - 1) 1 maxRetries
    (fun i hi => hret (1 + i) (by omega) (by omega)) (by omega)]
  have h1k : 1 + (k - 1) = k := by omega
  rw [h1k]
  obtain ⟨r', hr'⟩ : ∃ r', maxRetries - (k - 1) = r' + 1 := ⟨maxRetries - k, by omega⟩
  rw [hr']
  simp [fetchAux, h200]

/-- C1 witness: 503 on attempts 1–3, 200 on attempt 4, `max_retries = 4`
yields success. -/
theorem C1_retry_then_success_witness :
    (fetch_tile_with_retry env503x3 4 (1/4) 5).2 = true := by
  have h := C1_retry_then_success env503x3 4 4 (1/4) 5 sampleDecoded
    (by norm_num) (by norm_num)
    (fun a h1 h4 => by interval_cases a <;> rfl) rfl
  simpa [sampleDecoded, image_count] using h

/-- C2 counterexample: when all `max_retries = 4` attempts fail with the
retryable status 503, the fetch returns the plain boolean `false` — the
same value a successful fetch of a tile with no coverage returns, and
the same value an all-timeouts run returns.  No `PersistentFailure`
carrying the last error is produced; the last error is discarded. -/
theorem C2_exhausted_counterexample :
    (fetch_tile_with_retry env503 4 (1/4) 5).2 = false ∧
    (fetch_tile_with_retry envEmptyOk 4 (1/4) 5).2 = false ∧
    (fetch_tile_with_retry env503 4 (1/4) 5).2 =
      (fetch_tile_with_retry envTimeout 4 (1/4) 5).2 := by
  refine ⟨rfl, rfl, rfl⟩

/-- C2 amended: when every attempt fails with a retryable outcome, the
fetch runs exactly `max_retries` attempts and then returns normally with
`has_coverage = false`; no exception escapes (every handler returns),
but the last error is not carried — the outcome is indistinguishable
from a successful check that found no coverage. -/
theorem C2_exhausted_returns_false (env : ℕ → AttemptResult) (maxRetries : ℕ) (base cap : ℚ)
    (hret : ∀ a, (env a).isRetryable = true) (hmax : 1 ≤ maxRetries) :
    fetch_tile_with_retry env maxRetries base cap =
      (retryTrace base cap 1 (maxRetries - 1) ++ [.acquire, .request maxRetries], false) := by
  unfold fetch_tile_with_retry
  rw [fetchAux_retryable_run env base cap (maxRetries - 1) 1 maxRetries
    (fun i _ => hret _) (by omega)]
  have h1 : 1 + (maxRetries - 1) = maxRetries := by omega
  have h2 : maxRetries - (maxRetries - 1) = 1 := by omega
  rw [h1, h2, fetchAux_last_retryable env base cap maxRetries (hret _)]

/-- C2 witness: two timeouts with `max_retries = 2`. -/
theorem C2_exhausted_returns_false_witness :
    fetch_tile_with_retry envTimeout 2 (1/4) 5 =
      (retryTrace (1/4) 5 1 1 ++ [.acquire, .request 2], false) :=
  C2_exhausted_returns_false envTimeout 2 (1/4) 5 (fun _ => rfl) (by norm_num)

/-- C6 counterexample: a payload whose structural decode fails makes the
fetch return the plain boolean `false` with a trace identical to that of
a successfully decoded tile with no coverage — there is no distinct
DecodeError-style error kind in the outcome. -/
theorem C6_decode_counterexample :
    fetch_tile_with_retry envBadBody 8 (1/4) 5 =
      fetch_tile_with_retry envEmptyOk 8 (1/4) 5 := by
  rfl

/-- C6 amended: a structural decode failure ends the fetch immediately —
the trace shows a single attempt, no backoff sleep and no further
request, so the failure is never retried and never handled as a
retryable network error; but the result is the plain `false`, not a
distinct error kind. -/
theorem C6_decode_failure_not_retried (env : ℕ → AttemptResult) (maxRetries : ℕ)
    (base cap : ℚ) (hmax : 1 ≤ maxRetries)
    (hdec : env 1 = .response 200 (.error ())) :
    fetch_tile_with_retry env maxRetries base cap = ([.acquire, .request 1], false) := by
  unfold fetch_tile_with_retry
  obtain ⟨r', rfl⟩ : ∃ r', maxRetries = r' + 1 := ⟨maxRetries - 1, by omega⟩
  simp [fetchAux, hdec]

/-- C6 witness: decode failure on the first attempt with `max_retries = 8`. -/
theorem C6_decode_failure_not_retried_witness :
    fetch_tile_with_retry envBadBody 8 (1/4) 5 = ([.acquire, .request 1], false) :=
  C6_decode_failure_not_retried envBadBody 8 (1/4) 5 (by norm_num) rfl

/-- C7: on a successfully decoded payload the decoder's output is the
number of features of the layer named `"image"` — zero when that layer
is absent, an empty dict, or has an empty feature list — and the fetched
`has_coverage` is `true` iff that count is positive. -/
theorem C7_decoder_counts_image_features (env : ℕ → AttemptResult) (body : Decoded)
    (maxRetries : ℕ) (base cap : ℚ) (hmax : 1 ≤ maxRetries)
    (h200 : env 1 = .response 200 (.ok body)) :
    ((fetch_tile_with_retry env maxRetries base cap).2 = true ↔ 0 < image_count body) ∧
    (body.lookup "image" = none → image_count body = 0) ∧
    (∀ L, body.lookup "image" = some L → L = [] → image_count body = 0) ∧
    (∀ L, body.lookup "image" = some L → L.lookup "features" = some [] →
      image_count body = 0) ∧
    (∀ L fs, body.lookup "image" = some L → L ≠ [] → L.lookup "features" = some fs →
      image_count body = fs.length) := by
  refine ⟨?_, ?_, ?_, ?_, ?_⟩
  · unfold fetch_tile_with_retry
    obtain ⟨r', rfl⟩ : ∃ r', maxRetries = r' + 1 := ⟨maxRetries - 1, by omega⟩
    simp [fetchAux, h200]
  · intro h
    simp [image_count, h]
  · intro L hL hnil
    simp [image_count, hL, hnil]
  · intro L hL hfs
    by_cases hnil : L.isEmpty <;> simp [image_count, hL, hfs, hnil]
  · intro L fs hL hne hfs
    have : L.isEmpty = false := by simpa [List.isEmpty_iff] using hne
    simp [image_count, hL, hfs, this]

/-- C7 witness: a tile with two `"image"` features has coverage. -/
theorem C7_decoder_counts_image_features_witness :
    ((fetch_tile_with_retry (fun _ => .response 200 (.ok sampleDecoded2)) 8 (1/4) 5).2 = true
      ↔ 0 < image_count sampleDecoded2) ∧ image_count sampleDecoded2 = 2 := by
  have h := C7_decoder_counts_image_features (fun _ => .response 200 (.ok sampleDecoded2))
    sampleDecoded2 8 (1/4) 5 (by norm_num) rfl
  exact ⟨h.1, rfl⟩

/-- C8: while attempts `1..k` all fail retryably (`k < max_retries`),
the trace is the retry prefix — for each attempt `a ≤ k`: limiter
acquisition, the request, then a sleep of exactly
`min(cap, base·2^(a−1))` — followed by the resumed loop, whose first two
events are again an acquire and the request of attempt `k + 1`: the
backoff sleep never replaces the limiter wait. -/
theorem C8_backoff_schedule (env : ℕ → AttemptResult) (maxRetries k : ℕ) (base cap : ℚ)
    (hk : k < maxRetries) (hret : ∀ a, 1 ≤ a → a ≤ k → (env a).isRetryable = true) :
    (fetch_tile_with_retry env maxRetries base cap).1 =
      retryTrace base cap 1 k ++ (fetchAux env base cap (k + 1) (maxRetries - k)).1 ∧
    ((fetchAux env base cap (k + 1) (maxRetries - k)).1).take 2 =
      [.acquire, .request (k + 1)] ∧
    (∀ a, backoff base cap a = min cap (base * 2 ^ (a - 1))) := by
  refine ⟨?_, ?_, fun a => rfl⟩
  · unfold fetch_tile_with_retry
    rw [fetchAux_retryable_run env base cap k 1 maxRetries
      (fun i hi => hret (1 + i) (by omega) (by omega)) (by omega)]
    have h1 : 1 + k = k + 1 := by omega
    rw [h1]
  · exact fetchAux_take_two env base cap (k + 1) (maxRetries - k) (by omega)

/-- C8 witness: two 503s with `max_retries = 4`, base 1/4, cap 5: sleeps
of 1/4 then 1/2, each attempt preceded by an acquire. -/
theorem C8_backoff_schedule_witness :
    (fetch_tile_with_retry env503 4 (1/4) 5).1 =
      [.acquire, .request 1, .sleepFor (1/4), .acquire, .request 2, .sleepFor (1/2)] ++
        (fetchAux env503 (1/4) 5 3 2).1 ∧
    ((fetchAux env503 (1/4) 5 3 2).1).take 2 = [.acquire, .request 3] := by
  have h := C8_backoff_schedule env503 4 2 (1/4) 5 (by norm_num)
    (fun a h1 h2 => by interval_cases a <;> rfl)
  refine ⟨?_, h.2.1⟩
  rw [h.1]
  norm_num [retryTrace, backoff]

/-- Evaluation of `lrun` on a cons cell. -/
lemma lrun_cons (interval s now : ℚ) (rest : List ℚ) :
    lrun interval s (now :: rest) =
      ((lrun interval (lstep interval s now).1 rest).1,
       (lstep interval s now).2.toList ++ (lrun interval (lstep interval s now).1 rest).2) :=
  rfl

/-- Dispatches of a limiter run are spaced at least `interval` apart,
and none precedes the entry state. -/
lemma lrun_spacing (interval : ℚ) (hi : 0 ≤ interval) :
    ∀ (nows : List ℚ) (s : ℚ),
      List.Chain' (fun a b => a + interval ≤ b) (lrun interval s nows).2 ∧
      ∀ t ∈ (lrun interval s nows).2, s ≤ t := by
  intro nows
  induction nows with
  | nil => intro s; simp [lrun]
  | cons now rest ih =>
    intro s
    by_cases hs : s ≤ now
    · have hstep : lstep interval s now = (now + interval, some now) := by simp [lstep, hs]
      obtain ⟨ihchain, ihlb⟩ := ih (now + interval)
      rw [lrun_cons, hstep]
      simp only [Option.toList_some, List.singleton_append]
      constructor
      · rw [List.chain'_cons']
        exact ⟨fun b hb => ihlb b (List.mem_of_mem_head? hb), ihchain⟩
      · intro t ht
        rcases List.mem_cons.mp ht with rfl | ht
        · exact hs
        · have := ihlb t ht
          linarith
    · have hstep : lstep interval s now = (s, none) := by simp [lstep, hs]
      obtain ⟨ihchain, ihlb⟩ := ih s
      rw [lrun_cons, hstep]
      simpa using ⟨ihchain, ihlb⟩

/-- A list whose consecutive elements are at least `interval` apart has
its last element at least `(length − 1) · interval` after its first. -/
lemma chain_spacing_head_getLast (interval : ℚ) :
    ∀ (l : List ℚ), List.Chain' (fun a b => a + interval ≤ b) l →
    ∀ t1 tn, l.head? = some t1 → l.getLast? = some tn →
      t1 + ((l.length - 1 : ℕ) : ℚ) * interval ≤ tn := by
  intro l
  induction l with
  | nil => intro _ t1 tn h1 _; cases h1
  | cons x rest ih =>
    intro hchain t1 tn h1 hn
    cases rest with
    | nil =>
      simp only [List.head?_cons, Option.some.injEq] at h1
      simp only [List.getLast?_singleton, Option.some.injEq] at hn
      subst h1; subst hn
      simp
    | cons y rest' =>
      simp only [List.head?_cons, Option.some.injEq] at h1
      subst h1
      have hxy : x + interval ≤ y := (List.chain'_cons.mp hchain).1
      have hchain' : List.Chain' (fun a b => a + interval ≤ b) (y :: rest') :=
        (List.chain'_cons.mp hchain).2
      have hn' : (y :: rest').getLast? = some tn := by
        rwa [List.getLast?_cons_cons] at hn
      have := ih hchain' y tn rfl hn'
      have hlen : (((x :: y :: rest').length - 1 : ℕ) : ℚ) =
          (((y :: rest').length - 1 : ℕ) : ℚ) + 1 := by
        simp only [List.length_cons]
        push_cast
        ring
      rw [hlen]
      nlinarith [this]

/-- C5: each critical section of `acquire` either leaves `_next_allowed`
unchanged (when the caller must wait) or strictly increases it (when the
caller dispatches), so the shared next-allowed instant is monotonically
non-decreasing over every serialized interleaving. -/
theorem C5_next_allowed_monotone (interval s now : ℚ) (hi : 0 < interval) :
    s ≤ (lstep interval s now).1 ∧
    ((lstep interval s now).2 = none → (lstep interval s now).1 = s) ∧
    (∀ t, (lstep interval s now).2 = some t → s < (lstep interval s now).1) := by
  by_cases hs : s ≤ now <;> simp [lstep, hs]
  constructor <;> intros <;> linarith

/-- C5 witness: a dispatching step at interval 1/2 strictly advances the
state; state 0, clock 0. -/
theorem C5_next_allowed_monotone_witness :
    (0 : ℚ) ≤ (lstep (1/2) 0 0).1 ∧
    ((lstep (1/2 : ℚ) 0 0).2 = none → (lstep (1/2 : ℚ) 0 0).1 = 0) ∧
    (∀ t, (lstep (1/2 : ℚ) 0 0).2 = some t → (0 : ℚ) < (lstep (1/2) 0 0).1) :=
  C5_next_allowed_monotone (1/2) 0 0 (by norm_num)

/-- C4: over any serialized sequence of `acquire` critical sections at
rate `R` (interval `1/R`), the dispatch instants are strictly
increasing — no two callers are dispatched at the same reserved
instant — and the last of the `N` dispatches is at least `(N − 1)/R`
after the first. -/
theorem C4_rate_spacing (R s : ℚ) (nows : List ℚ) (hR : 0 < R) :
    List.Pairwise (· < ·) (lrun (limiterInterval R) s nows).2 ∧
    ∀ t1 tn, ((lrun (limiterInterval R) s nows).2).head? = some t1 →
      ((lrun (limiterInterval R) s nows).2).getLast? = some tn →
      t1 + ((((lrun (limiterInterval R) s nows).2).length - 1 : ℕ) : ℚ) / R ≤ tn := by
  have hi : 0 < limiterInterval R := by
    simp only [limiterInterval]
    positivity
  obtain ⟨hchain, _⟩ := lrun_spacing (limiterInterval R) (le_of_lt hi) nows s
  constructor
  · rw [← List.chain'_iff_pairwise]
    exact hchain.imp fun a b hab => by linarith
  · intro t1 tn h1 hn
    have := chain_spacing_head_getLast (limiterInterval R) _ hchain t1 tn h1 hn
    have hdiv : ((((lrun (limiterInterval R) s nows).2).length - 1 : ℕ) : ℚ) / R =
        ((((lrun (limiterInterval R) s nows).2).length - 1 : ℕ) : ℚ) * limiterInterval R := by
      simp only [limiterInterval]
      ring
    rw [hdiv]
    exact this

/-- C4 witness: rate 2/s, clock observations 0, 0, 1/2, 1 give
dispatches [0, 1/2, 1]: pairwise distinct and 1 − 0 ≥ (3 − 1)/2. -/
theorem C4_rate_spacing_witness :
    (lrun (limiterInterval 2) 0 [0, 0, 1/2, 1]).2 = [0, 1/2, 1] ∧
    List.Pairwise (· < ·) ((lrun (limiterInterval 2) 0 [0, 0, 1/2, 1]).2 : List ℚ) ∧
    ∀ t1 tn, ((lrun (limiterInterval 2) (0 : ℚ) [0, 0, 1/2, 1]).2).head? = some t1 →
      ((lrun (limiterInterval 2) (0 : ℚ) [0, 0, 1/2, 1]).2).getLast? = some tn →
      t1 + ((((lrun (limiterInterval 2) (0 : ℚ) [0, 0, 1/2, 1]).2).length - 1 : ℕ) : ℚ) / 2 ≤ tn := by
  have h := C4_rate_spacing 2 0 [0, 0, 1/2, 1] (by norm_num)
  exact ⟨by norm_num [lrun, lstep, limiterInterval], h.1, h.2⟩

/-- Inserting every batch row appends the batch to `tile_results`. -/
lemma foldl_insertTR (z : ℤ) :
    ∀ (batch : List TileResult) (st : DBState),
      (batch.map DbOp.insertTR).foldl (runOp z) st =
        { st with tile_results := st.tile_results ++ batch } := by
  intro batch
  induction batch with
  | nil => intro st; simp
  | cons t rest ih =>
    intro st
    simp only [List.map_cons, List.foldl_cons, runOp, ih]
    simp

/-- The full transaction body: insert the batch, run `BATCH_UPDATE`,
clear `tile_results`. -/
lemma foldl_batchOps (z : ℤ) (batch : List TileResult) (st : DBState) :
    (batchOps batch).foldl (runOp z) st =
      ⟨applyBatchUpdate z (st.tile_results ++ batch) st.images, []⟩ := by
  unfold batchOps
  rw [List.foldl_append, foldl_insertTR]
  rfl

/-- If the statement runner reaches `COMMIT`, the resulting state is the
in-order fold of all statements. -/
lemma runOps_ok (z : ℤ) :
    ∀ (ops : List DbOp) (st : DBState) (failAt : Option ℕ) (st' : DBState),
      runOps z st ops failAt = .ok st' → st' = ops.foldl (runOp z) st := by
  intro ops
  induction ops with
  | nil =>
    intro st failAt st' h
    match failAt with
    | none => simpa [runOps] using h.symm
    | some 0 => simp [runOps] at h
    | some (n + 1) => simpa [runOps] using h.symm
  | cons op rest ih =>
    intro st failAt st' h
    match failAt with
    | none => exact ih (runOp z st op) none st' h
    | some 0 => simp [runOps] at h
    | some (n + 1) => exact ih (runOp z st op) (some n) st' h

/-- The all-success run (`failAt = none`) reaches `COMMIT`. -/
lemma runOps_none_ok (z : ℤ) :
    ∀ (ops : List DbOp) (st : DBState),
      runOps z st ops none = .ok (ops.foldl (runOp z) st) := by
  intro ops
  induction ops with
  | nil => intro st; rfl
  | cons op rest ih => intro st; exact ih (runOp z st op)

/-- C3: batch persistence is atomic.  Starting from a connection whose
`tile_results` temp table is empty (as every committed batch leaves it):
when no exception escapes, the committed `images` table carries every
outcome of the batch via `BATCH_UPDATE` and `tile_results` is empty
again; when any statement of the transaction (or `COMMIT`) raises, the
committed state is exactly the original one — no tile changed state —
and the exception propagates out of the block (`raise` after
`ROLLBACK`), halting the run.  A clean run never raises. -/
theorem C3_batch_persist_atomic (db : DBState) (z : ℤ) (batch : List TileResult)
    (failAt : Option ℕ) (hclean : db.tile_results = []) :
    ((persistBatch db z batch failAt).2 = false →
      (persistBatch db z batch failAt).1 =
        ⟨applyBatchUpdate z batch db.images, []⟩) ∧
    ((persistBatch db z batch failAt).2 = true →
      (persistBatch db z batch failAt).1 = db) ∧
    (persistBatch db z batch none).2 = false := by
  refine ⟨?_, ?_, ?_⟩
  · intro hfalse
    unfold persistBatch at hfalse ⊢
    cases hrun : runOps z db (batchOps batch) failAt with
    | ok st =>
      have hst := runOps_ok z (batchOps batch) db failAt st hrun
      rw [foldl_batchOps, hclean] at hst
      simp only [List.nil_append] at hst
      simpa using hst
    | error e => rw [hrun] at hfalse; simp at hfalse
  · intro htrue
    unfold persistBatch at htrue ⊢
    cases hrun : runOps z db (batchOps batch) failAt with
    | ok st => simp [hrun] at htrue
    | error e => simp [hrun]
  · unfold persistBatch
    rw [runOps_none_ok]

/-- A sample catalogue row: image 1 on tile (5, 7) at zoom 14, unresolved. -/
def sampleRow : ImageRow := ⟨1, some 5, some 7, some 14, none, 100⟩

/-- A sample connection state: one unresolved row, empty `tile_results`. -/
def sampleDB : DBState := ⟨[sampleRow], []⟩

/-- C3 witness: one-tile batch against `sampleDB`; the clean run commits
the update, the run whose second statement raises leaves the state
untouched and propagates. -/
theorem C3_batch_persist_atomic_witness :
    ((persistBatch sampleDB 14 [(5, 7, true)] none).2 = false →
      (persistBatch sampleDB 14 [(5, 7, true)] none).1 =
        ⟨applyBatchUpdate 14 [(5, 7, true)] sampleDB.images, []⟩) ∧
    ((persistBatch sampleDB 14 [(5, 7, true)] (some 1)).2 = true →
      (persistBatch sampleDB 14 [(5, 7, true)] (some 1)).1 = sampleDB) ∧
    (persistBatch sampleDB 14 [(5, 7, true)] (some 1)).2 = true ∧
    (persistBatch sampleDB 14 [(5, 7, true)] none).2 = false := by
  refine ⟨(C3_batch_persist_atomic sampleDB 14 [(5, 7, true)] none rfl).1,
          (C3_batch_persist_atomic sampleDB 14 [(5, 7, true)] (some 1) rfl).2.1,
          by decide, (C3_batch_persist_atomic sampleDB 14 [(5, 7, true)] none rfl).2.2⟩

/-- The deduplicated list has no duplicates and avoids `seen`. -/
lemma dedupFirstAux_nodup :
    ∀ (l seen : List (ℤ × ℤ)),
      (dedupFirstAux seen l).Nodup ∧ ∀ y ∈ dedupFirstAux seen l, y ∉ seen := by
  intro l
  induction l with
  | nil => intro seen; simp [dedupFirstAux]
  | cons x xs ih =>
    intro seen
    by_cases hx : x ∈ seen
    · simpa [dedupFirstAux, hx] using ih seen
    · obtain ⟨ihnd, ihns⟩ := ih (x :: seen)
      refine ⟨?_, ?_⟩
      · simp only [dedupFirstAux, hx, if_false, List.nodup_cons]
        exact ⟨fun hmem => (ihns x hmem) (List.mem_cons_self x seen), ihnd⟩
      · intro y hy
        simp only [dedupFirstAux, hx, if_false, List.mem_cons] at hy
        rcases hy with rfl | hy
        · exact hx
        · exact fun hc => (ihns y hy) (List.mem_cons_of_mem x hc)

/-- Deduplication yields a sublist (order is preserved, nothing added). -/
lemma dedupFirstAux_sublist :
    ∀ (l seen : List (ℤ × ℤ)), (dedupFirstAux seen l).Sublist l := by
  intro l
  induction l with
  | nil => intro seen; simp [dedupFirstAux]
  | cons x xs ih =>
    intro seen
    by_cases hx : x ∈ seen
    · simpa [dedupFirstAux, hx] using (ih seen).trans (List.sublist_cons_self x xs)
    · simpa [dedupFirstAux, hx] using List.Sublist.cons₂ x (ih (x :: seen))

/-- With fuel at least the list's length, slicing concatenates back to
the original list. -/
lemma chunksAux_flatten {α : Type} (bs : ℕ) (hbs : 1 ≤ bs) :
    ∀ (fuel : ℕ) (l : List α), l.length ≤ fuel → (chunksAux bs fuel l).flatten = l := by
  intro fuel
  induction fuel with
  | zero =>
    intro l hl
    have : l = [] := List.length_eq_zero.mp (Nat.le_zero.mp hl)
    subst this
    rfl
  | succ fuel ih =>
    intro l hl
    cases l with
    | nil => rfl
    | cons x xs =>
      simp only [chunksAux, List.flatten_cons]
      rw [ih ((x :: xs).drop bs) (by
        simp only [List.length_drop, List.length_cons] at hl ⊢
        omega)]
      exact List.take_append_drop bs (x :: xs)

/-- The per-run batch slicing loses and duplicates nothing. -/
lemma codeBatches_flatten (z : ℤ) (n bs : ℕ) (rows : List ImageRow) (hbs : 1 ≤ bs) :
    (codeBatches z n bs rows).flatten = tiles_to_check z n rows :=
  chunksAux_flatten bs hbs _ _ le_rfl

/-- Concrete catalogue for the C9 counterexample: three unresolved tiles
at zoom 14, most recent first. -/
def c9rows : List ImageRow :=
  [⟨1, some 1, some 1, some 14, none, 30⟩,
   ⟨2, some 2, some 2, some 14, none, 20⟩,
   ⟨3, some 3, some 3, some 14, none, 10⟩]

/-- C9 counterexample: with per-run cap `N = 2` and batch size 1 over
three unresolved tiles, the run's batches are the slices of the single
initial query — two batches — whereas re-running the selection before
each batch against the then-committed state yields three.  The code
does not re-query between batches. -/
theorem C9_no_requery_counterexample :
    codeBatches 14 2 1 c9rows = [[(1, 1)], [(2, 2)]] ∧
    requeryBatches 14 2 1 (fun _ _ => true) 4 c9rows =
      [[(1, 1)], [(2, 2)], [(3, 3)]] ∧
    codeBatches 14 2 1 c9rows ≠ requeryBatches 14 2 1 (fun _ _ => true) 4 c9rows := by
  refine ⟨by decide, by decide, by decide⟩

/-- C9 amended: the selection query returns at most `N` distinct tiles,
each belonging to a catalogue row at the configured zoom with no
coverage value yet, in most-recent-first order (the query's sort key);
but the query runs once per run: the batches are consecutive slices of
that single snapshot, which together are exactly the snapshot — the
latest committed state is reflected only when a later run re-executes
the query. -/
theorem C9_worklist_selection (z : ℤ) (n bs : ℕ) (rows : List ImageRow) (hbs : 1 ≤ bs) :
    (tiles_to_check z n rows).length ≤ n ∧
    (tiles_to_check z n rows).Nodup ∧
    (∀ t ∈ tiles_to_check z n rows, ∃ r ∈ rows,
      unresolvedAtZoom z r = true ∧ coords r = t) ∧
    List.Sorted (fun a b => b.eventDate ≤ a.eventDate)
      (sortByDateDesc (rows.filter (unresolvedAtZoom z))) ∧
    (tiles_to_check z n rows).Sublist
      ((sortByDateDesc (rows.filter (unresolvedAtZoom z))).map coords) ∧
    (codeBatches z n bs rows).flatten = tiles_to_check z n rows := by
  have hsub : (tiles_to_check z n rows).Sublist
      ((sortByDateDesc (rows.filter (unresolvedAtZoom z))).map coords) := by
    unfold tiles_to_check
    exact (List.take_sublist _ _).trans (dedupFirstAux_sublist _ [])
  refine ⟨?_, ?_, ?_, ?_, hsub, codeBatches_flatten z n bs rows hbs⟩
  · exact List.length_take_le _ _
  · unfold tiles_to_check
    exact (List.take_sublist _ _).nodup (dedupFirstAux_nodup _ []).1
  · intro t ht
    have hmem : t ∈ (sortByDateDesc (rows.filter (unresolvedAtZoom z))).map coords :=
      hsub.mem ht
    obtain ⟨r, hr, rfl⟩ := List.mem_map.mp hmem
    have hr' : r ∈ rows.filter (unresolvedAtZoom z) :=
      (List.perm_insertionSort _ _).mem_iff.mp hr
    exact ⟨r, (List.mem_filter.mp hr').1, (List.mem_filter.mp hr').2, rfl⟩
  · haveI : IsTotal ImageRow (fun a b => b.eventDate ≤ a.eventDate) :=
      ⟨fun a b => le_total b.eventDate a.eventDate⟩
    haveI : IsTrans ImageRow (fun a b => b.eventDate ≤ a.eventDate) :=
      ⟨fun _ _ _ hab hbc => le_trans hbc hab⟩
    exact List.sorted_insertionSort _ _

/-- C9 witness: the amended claim at the concrete three-row catalogue,
`N = 2`, batch size 1. -/
theorem C9_worklist_selection_witness :
    (tiles_to_check 14 2 c9rows).length ≤ 2 ∧
    (tiles_to_check 14 2 c9rows).Nodup ∧
    (∀ t ∈ tiles_to_check 14 2 c9rows, ∃ r ∈ c9rows,
      unresolvedAtZoom 14 r = true ∧ coords r = t) ∧
    List.Sorted (fun a b => b.eventDate ≤ a.eventDate)
      (sortByDateDesc (c9rows.filter (unresolvedAtZoom 14))) ∧
    (tiles_to_check 14 2 c9rows).Sublist
      ((sortByDateDesc (c9rows.filter (unresolvedAtZoom 14))).map coords) ∧
    (codeBatches 14 2 1 c9rows).flatten = tiles_to_check 14 2 c9rows :=
  C9_worklist_selection 14 2 1 c9rows (by norm_num)

/-- C10: `fetch_batch` returns one terminal outcome per input tile, in
input order: the output has the same length as the input and its `i`-th
element is the `i`-th input's coordinates paired with that tile's
coverage outcome. -/
theorem C10_fetch_batch_pointwise (rows : List (ℤ × ℤ)) (env : ℤ → ℤ → ℕ → AttemptResult)
    (maxRetries : ℕ) (base cap : ℚ) :
    (fetch_batch rows env maxRetries base cap).length = rows.length ∧
    ∀ (i : ℕ) (x y : ℤ), rows[i]? = some (x, y) →
      (fetch_batch rows env maxRetries base cap)[i]? =
        some (x, y, (fetch_tile_with_retry (env x y) maxRetries base cap).2) := by
  constructor
  · simp [fetch_batch]
  · intro i x y h
    simp [fetch_batch, List.getElem?_map, h]

/-- C10 witness: a two-tile batch where both tiles decode to one
`"image"` feature. -/
theorem C10_fetch_batch_pointwise_witness :
    (fetch_batch [(1, 2), (3, 4)]
      (fun _ _ _ => .response 200 (.ok sampleDecoded)) 8 (1/4) 5).length = 2 ∧
    (fetch_batch [(1, 2), (3, 4)]
      (fun _ _ _ => .response 200 (.ok sampleDecoded)) 8 (1/4) 5)[1]? =
      some (3, 4,
        (fetch_tile_with_retry (fun _ => .response 200 (.ok sampleDecoded)) 8 (1/4) 5).2) := by
  have h := C10_fetch_batch_pointwise [(1, 2), (3, 4)]
    (fun _ _ _ => .response 200 (.ok sampleDecoded)) 8 (1/4) 5
  exact ⟨h.1, h.2 1 3 4 rfl⟩

end TileCoverage
